import Mathlib

/-!
Shallow embedding of the Hacklytics "Axiom" verification backend.

Embedded source files:
* `axiom-backend/models/__init__.py` — the data model (enums and Pydantic
  models).  Python floats are modelled as rationals; the Pydantic field
  bounds (`confidence`, `relevance`, `risk_score` constrained to the unit
  interval by `Field(ge=0.0, le=1.0)`) are modelled as explicit
  well-formedness predicates.  The `created_at` / `settled_at` timestamp
  fields and the uuid-generated id defaults are nondeterministic
  environment effects and carry no claim content; ids are plain strings
  here.
* `axiom-backend/config.py` — the two risk thresholds
  (`RISK_THRESHOLD_ALLOW = 0.80`, `RISK_THRESHOLD_REWRITE = 0.40`).
* `axiom-backend/services/risk_engine.py` — `AGENT_WEIGHTS`,
  `SEVERITY_MULTIPLIERS`, `aggregate_risk`, `_generate_rationale`,
  `determine_overall_action`.
* `axiom-backend/services/orchestrator.py` — the claim-sequencing cores of
  `run_verification` (batch) and `run_verification_streaming` (streaming),
  with verifiers abstracted as functions returning `Except` (a raised
  Python exception is an `Except.error` value).
-/

/-! ## Data model (models/__init__.py) -/

inductive ClaimType where
  | NUMERIC
  | ENTITY
  | EVENT
  | CASE_LAW
  | LEGAL
  | QUOTE
  | CAUSAL
  deriving DecidableEq

inductive Severity where
  | CRITICAL
  | HIGH
  | MED
  | LOW
  deriving DecidableEq

inductive Verdict where
  | TRUE
  | FALSE
  | UNCERTAIN
  deriving DecidableEq

inductive RiskAction where
  | ALLOW
  | REWRITE
  | BLOCK
  deriving DecidableEq

inductive AgentSide where
  | LONG
  | SHORT
  deriving DecidableEq

inductive FindingType where
  | CONFIRMED
  | CONTRADICTION
  | SUPPORTS
  | FLAG
  | INCONSISTENCY
  | CONSISTENT
  | PATTERN
  | NOT_FOUND
  deriving DecidableEq

structure Claim where
  id : String
  text : String
  type : ClaimType
  severity : Severity
  source_text : String := ""
  deriving DecidableEq

structure Finding where
  type : FindingType
  text : String
  source : String
  relevance : ℚ
  deriving DecidableEq

structure AgentAssessment where
  agent_name : String
  claim_id : String
  position : AgentSide
  confidence : ℚ
  summary : String
  findings : List Finding := []
  latency_ms : ℚ := 0
  deriving DecidableEq

structure ClaimVerification where
  claim : Claim
  risk_score : ℚ
  verdict : Verdict
  action : RiskAction
  rationale : String
  assessments : List AgentAssessment := []
  deriving DecidableEq

/-- Pydantic bound `relevance: float = Field(ge=0.0, le=1.0)`. -/
def Finding.Wf (f : Finding) : Prop := 0 ≤ f.relevance ∧ f.relevance ≤ 1

instance (f : Finding) : Decidable f.Wf := by unfold Finding.Wf; infer_instance

/-- Pydantic bound `confidence: float = Field(ge=0.0, le=1.0)` plus
well-formedness of the owned findings. -/
def AgentAssessment.Wf (a : AgentAssessment) : Prop :=
  0 ≤ a.confidence ∧ a.confidence ≤ 1 ∧ ∀ f ∈ a.findings, f.Wf

instance (a : AgentAssessment) : Decidable a.Wf := by
  unfold AgentAssessment.Wf; infer_instance

/-! ## Configuration (config.py) -/

/-- The two configurable risk thresholds from `config.py`, with their
default values `RISK_THRESHOLD_ALLOW = 0.80`, `RISK_THRESHOLD_REWRITE = 0.40`. -/
structure Config where
  RISK_THRESHOLD_ALLOW : ℚ := 4/5
  RISK_THRESHOLD_REWRITE : ℚ := 2/5
  deriving DecidableEq

def config : Config := {}

/-! ## Risk engine (services/risk_engine.py) -/

/-- `AGENT_WEIGHTS.get(a.agent_name, 0.8)`: the reliability-weight table
plus the `.get` default of 0.8 for unlisted agent names. -/
def agent_weight (agent_name : String) : ℚ :=
  if agent_name = "NumericVerifier" then 1
  else if agent_name = "RetrieverAgent" then 9/10
  else if agent_name = "ConsistencyBot" then 4/5
  else 4/5

/-- `SEVERITY_MULTIPLIERS` — higher severity = stricter thresholds.
Every `Severity` value has an entry, so the Python `.get(sev, 1.0)`
default branch is unreachable. -/
def SEVERITY_MULTIPLIERS : Severity → ℚ
  | Severity.CRITICAL => 6/5
  | Severity.HIGH => 11/10
  | Severity.MED => 1
  | Severity.LOW => 17/20

/-- Evidence-quality factor from the loop body of `aggregate_risk`:
0.5 when a verifier produced no findings, else `0.7 + 0.3 * avg_relevance`. -/
def evidence_weight (a : AgentAssessment) : ℚ :=
  if a.findings ≠ [] then
    7/10 + 3/10 * ((a.findings.map Finding.relevance).sum / (a.findings.length : ℚ))
  else 1/2

/-- `effective_weight = w * evidence_weight` from the loop body. -/
def effective_weight (a : AgentAssessment) : ℚ :=
  agent_weight a.agent_name * evidence_weight a

/-- Truth probability of one assessment: `confidence` for a LONG
(believes-true) position, `1 - confidence` for SHORT (believes-false). -/
def truth_prob (a : AgentAssessment) : ℚ :=
  if a.position = AgentSide.LONG then a.confidence else 1 - a.confidence

/-- The accumulation loop of Step 1 of `aggregate_risk`: running
`(weighted_sum, weight_total)` over the assessments. -/
def weight_totals (assessments : List AgentAssessment) : ℚ × ℚ :=
  assessments.foldl
    (fun acc a => (acc.1 + truth_prob a * effective_weight a, acc.2 + effective_weight a))
    (0, 0)

/-- `risk_score = weighted_sum / weight_total if weight_total > 0 else 0.5`. -/
def base_risk_score (assessments : List AgentAssessment) : ℚ :=
  if 0 < (weight_totals assessments).2 then
    (weight_totals assessments).1 / (weight_totals assessments).2
  else 1/2

/-- `positions.count(AgentSide.LONG)`. -/
def long_count (assessments : List AgentAssessment) : ℕ :=
  (assessments.filter (fun a => decide (a.position = AgentSide.LONG))).length

/-- `positions.count(AgentSide.SHORT)`. -/
def short_count (assessments : List AgentAssessment) : ℕ :=
  (assessments.filter (fun a => decide (a.position = AgentSide.SHORT))).length

/-- Step 2 of `aggregate_risk`: the disagreement penalty.  When both camps
are non-empty, `risk_score` is pulled toward 0.5 by
`minority_share * 0.15`. -/
def disagreement_adjusted (assessments : List AgentAssessment) (risk_score : ℚ) : ℚ :=
  if 0 < long_count assessments ∧ 0 < short_count assessments then
    let minority_share : ℚ :=
      ((min (long_count assessments) (short_count assessments) : ℕ) : ℚ) /
        (assessments.length : ℚ)
    let disagreement_penalty := minority_share * (3/20)
    risk_score * (1 - disagreement_penalty) + (1/2) * disagreement_penalty
  else risk_score

/-- The risk score after Steps 1 and 2 of `aggregate_risk` (the value fed
to the threshold comparison, before the 4-decimal rounding of the stored
field). -/
def final_risk_score (assessments : List AgentAssessment) : ℚ :=
  disagreement_adjusted assessments (base_risk_score assessments)

/-- Step 3 of `aggregate_risk`: `adjusted_allow = min(ALLOW * mult, 0.95)`. -/
def adjusted_allow (cfg : Config) (sev : Severity) : ℚ :=
  min (cfg.RISK_THRESHOLD_ALLOW * SEVERITY_MULTIPLIERS sev) (19/20)

/-- Step 3 of `aggregate_risk`:
`adjusted_rewrite = min(REWRITE * mult, adjusted_allow - 0.05)`. -/
def adjusted_rewrite (cfg : Config) (sev : Severity) : ℚ :=
  min (cfg.RISK_THRESHOLD_REWRITE * SEVERITY_MULTIPLIERS sev) (adjusted_allow cfg sev - 1/20)

/-- Step 4 of `aggregate_risk`: the verdict/action table. -/
def verdict_and_action (cfg : Config) (sev : Severity) (risk_score : ℚ) :
    Verdict × RiskAction :=
  if risk_score ≥ adjusted_allow cfg sev then (Verdict.TRUE, RiskAction.ALLOW)
  else if risk_score ≥ adjusted_rewrite cfg sev then (Verdict.UNCERTAIN, RiskAction.REWRITE)
  else (Verdict.FALSE, RiskAction.BLOCK)

/-- Python's `round(x, 4)` on the stored risk score.  (Python rounds exact
ties to even; the two differ only on exact ties, which no verified
property touches.) -/
def round4 (r : ℚ) : ℚ := ((Int.floor (r * 10000 + 1/2) : ℤ) : ℚ) / 10000

/-- Python's `f"{r:.0%}"` percent formatting used by `_generate_rationale`
(same tie caveat as `round4`). -/
def format_pct (r : ℚ) : String := toString (Int.floor (r * 100 + 1/2)) ++ "%"

/-- Python's `max(all_findings, key=lambda f: f.relevance)`: the first
finding of maximal relevance (later elements replace only on a strictly
greater key). -/
def max_by_relevance : List Finding → Option Finding
  | [] => none
  | f :: fs =>
      some (fs.foldl (fun best g => if g.relevance > best.relevance then g else best) f)

/-- `_generate_rationale` from `risk_engine.py`. -/
def generate_rationale (_claim : Claim) (assessments : List AgentAssessment)
    (risk_score : ℚ) (verdict : Verdict) (_action : RiskAction) : String :=
  let short_agents := assessments.filter (fun a => decide (a.position = AgentSide.SHORT))
  let long_agents := assessments.filter (fun a => decide (a.position = AgentSide.LONG))
  let parts : List String :=
    match verdict with
    | Verdict.FALSE =>
        let base := ["Claim scored " ++ format_pct risk_score ++ " factuality."]
        if short_agents.isEmpty then base
        else
          let agent_names := String.intercalate (", ") (short_agents.map (fun a => a.agent_name))
          let p2 := toString short_agents.length ++ "/3 verifiers flagged issues (" ++
            agent_names ++ ")."
          let all_findings := (short_agents.map (fun a => a.findings)).flatten
          match max_by_relevance all_findings with
          | none => base ++ [p2]
          | some top => base ++ [p2, "Key finding: " ++ top.text.take 120]
    | Verdict.TRUE =>
        let base := ["Claim verified with " ++ format_pct risk_score ++ " confidence."]
        if long_agents.isEmpty then base
        else
          let total_evidence := (long_agents.map (fun a => a.findings.length)).sum
          base ++ [toString long_agents.length ++ "/3 verifiers confirmed.",
            toString total_evidence ++ " supporting evidence items found."]
    | Verdict.UNCERTAIN =>
        ["Claim scored " ++ format_pct risk_score ++
          " — insufficient confidence to allow or block.",
          "Routed for human review with suggested rewrites."]
  String.intercalate (" ") parts

/-- `aggregate_risk` from `risk_engine.py`: aggregate agent assessments
into a final risk score + action. -/
def aggregate_risk (cfg : Config) (claim : Claim)
    (assessments : List AgentAssessment) : ClaimVerification :=
  if assessments = [] then
    { claim := claim
      risk_score := 1/2
      verdict := Verdict.UNCERTAIN
      action := RiskAction.BLOCK
      rationale := "No agent assessments available."
      assessments := assessments }
  else
    let risk_score := final_risk_score assessments
    let va := verdict_and_action cfg claim.severity risk_score
    { claim := claim
      risk_score := round4 risk_score
      verdict := va.1
      action := va.2
      rationale := generate_rationale claim assessments risk_score va.1 va.2
      assessments := assessments }

/-- `determine_overall_action` from `risk_engine.py`. -/
def determine_overall_action (verifications : List ClaimVerification) : RiskAction :=
  if verifications = [] then RiskAction.BLOCK
  else
    let actions := verifications.map (fun v => v.action)
    if verifications.any (fun v => decide (v.action = RiskAction.BLOCK ∧
        (v.claim.severity = Severity.CRITICAL ∨ v.claim.severity = Severity.HIGH))) then
      RiskAction.BLOCK
    else if RiskAction.REWRITE ∈ actions then RiskAction.REWRITE
    else if RiskAction.BLOCK ∈ actions then RiskAction.REWRITE
    else RiskAction.ALLOW

/-! ## Orchestrator (services/orchestrator.py)

The orchestrator drives claims in sequence through the verifier agents.
A verifier's `verify` coroutine is modelled as a function into `Except`:
a raised Python exception is an `Except.error` value, a normal return an
`Except.ok`.  The `all_assessments` dict (insertion-ordered, mutated in
place) is modelled as an insertion-ordered association list threaded
through the loops; the `context` dict handed to a verifier holds the
state of that mapping at the moment the `verify` call is made, which is
what the call observes through the shared reference.  Each embedding also
records, as a trace, the context snapshot seen by every `verify` call, so
that sequencing properties can be stated. -/

/-- The `context` dict built for each claim (`other_claims`,
`other_assessments`, `domain`). -/
structure VContext where
  other_claims : List Claim
  other_assessments : List (String × List AgentAssessment)
  domain : String
  deriving DecidableEq

/-- A verifier strategy: `verify(claim, context)`, where a raised
exception is `Except.error`. -/
abbrev Agent : Type := Claim → VContext → Except String AgentAssessment

/-- Batch mode, lines 57-60:
`assessments = await asyncio.gather(*agent_tasks, return_exceptions=True)`
followed by
`valid_assessments = [a for a in assessments if isinstance(a, AgentAssessment)]` —
raised exceptions come back as values and are dropped. -/
def valid_assessments (results : List (Except String AgentAssessment)) :
    List AgentAssessment :=
  results.filterMap (fun r => match r with
    | Except.ok a => some a
    | Except.error _ => none)

/-- Python dict membership `claim.id in all_assessments` on the
insertion-ordered association-list model of the dict. -/
def dict_has (m : List (String × List AgentAssessment)) (k : String) : Bool :=
  m.any (fun p => decide (p.1 = k))

/-- `all_assessments[claim.id]` lookup (`none` models a `KeyError`). -/
def dict_get (m : List (String × List AgentAssessment)) (k : String) :
    Option (List AgentAssessment) :=
  (m.find? (fun p => decide (p.1 = k))).map Prod.snd

/-- Python dict assignment `all_assessments[claim.id] = v`: an existing
key keeps its position and gets the new value, a fresh key is inserted
at the end (dict insertion order). -/
def dict_set (m : List (String × List AgentAssessment)) (k : String)
    (v : List AgentAssessment) : List (String × List AgentAssessment) :=
  if dict_has m k then
    m.map (fun p => if p.1 = k then (p.1, v) else p)
  else m ++ [(k, v)]

/-- Streaming-mode lines 155-157:
`if claim.id not in all_assessments: all_assessments[claim.id] = []` then
`all_assessments[claim.id].append(assessment)` — a fresh key is inserted
at the end (dict insertion order), an existing entry is extended. -/
def dict_append (m : List (String × List AgentAssessment)) (k : String)
    (a : AgentAssessment) : List (String × List AgentAssessment) :=
  if dict_has m k then
    m.map (fun p => if p.1 = k then (p.1, p.2 ++ [a]) else p)
  else m ++ [(k, [a])]

/-- The outcome of the batch per-claim loop, plus the trace of context
snapshots (one per claim; all agents of one claim get the same snapshot). -/
structure BatchTrace where
  verifications : List ClaimVerification
  contexts : List (String × VContext)
  final_assessments : List (String × List AgentAssessment)

/-- The `for claim in claims` loop of `run_verification` (batch mode,
lines 48-67): build the context from the accumulated `all_assessments`,
run all agents, drop errored agents, store the claim's valid assessments,
aggregate, recurse. -/
def run_claims_batch (cfg : Config) (agents : List Agent) (all_claims : List Claim)
    (domain : String) :
    List Claim → List (String × List AgentAssessment) → BatchTrace
  | [], acc => ⟨[], [], acc⟩
  | claim :: rest, acc =>
    let ctx : VContext :=
      ⟨all_claims.filter (fun c => decide (c.id ≠ claim.id)), acc, domain⟩
    let valid := valid_assessments (agents.map (fun ag => ag claim ctx))
    let acc2 := dict_set acc claim.id valid
    let verification := aggregate_risk cfg claim valid
    let t := run_claims_batch cfg agents all_claims domain rest acc2
    ⟨verification :: t.verifications, (claim.id, ctx) :: t.contexts, t.final_assessments⟩

/-- The observable outcome of batch `run_verification` for a fixed
extracted claim list: the session's claim list, verifications, overall
action, and whether the settlement adjudicator (`settle`) was invoked. -/
structure SessionResult where
  claims : List Claim
  verifications : List ClaimVerification
  overall_action : Option RiskAction
  settled : Bool
  deriving DecidableEq

/-- `run_verification` (batch mode) after claim extraction: empty claim
list short-circuits to ALLOW with no verification and no settlement;
otherwise every claim is verified in order and the overall action
resolved.  The settlement call itself is an external oracle
(`sphinx_oracle.settle`); only the fact that it is reached is modelled. -/
def run_verification (cfg : Config) (agents : List Agent) (claims : List Claim)
    (domain : String) : SessionResult :=
  if claims = [] then
    { claims := claims, verifications := [], overall_action := some RiskAction.ALLOW,
      settled := false }
  else
    let t := run_claims_batch cfg agents claims domain claims []
    { claims := claims, verifications := t.verifications,
      overall_action := some (determine_overall_action t.verifications),
      settled := true }

/-- The WebSocket events of `run_verification_streaming` (payload reduced
to the fields the verified properties mention). -/
inductive StreamEvent where
  | session_created
  | claims_extracted (claims : List Claim)
  | agent_quote (claim_id : String) (agent_name : String) (position : AgentSide)
      (confidence : ℚ)
  | risk_update (claim_id : String) (risk_score : ℚ) (verdict : Verdict)
      (action : RiskAction)
  | action_event (action : String) (reason : String)
  | settlement_event
  deriving DecidableEq

/-- Outcome of the streaming per-claim inner agent loop, with the trace
of the context state observed by each `verify` call. -/
structure AgentsLoopResult where
  events : List StreamEvent
  assessments_map : List (String × List AgentAssessment)
  contexts : List VContext

/-- Streaming-mode lines 139-159, the `for agent in ALL_AGENTS` loop for
one claim: agents run one after the other; each `verify` call observes
the `all_assessments` mapping as mutated so far (the context dict holds a
live reference to it); there is no try/except, so a raised exception
propagates out of the generator. -/
def stream_agents_loop (claim : Claim) (other_claims : List Claim) (domain : String) :
    List Agent → List (String × List AgentAssessment) →
    Except String AgentsLoopResult
  | [], m => Except.ok ⟨[], m, []⟩
  | ag :: rest, m =>
    let ctx : VContext := ⟨other_claims, m, domain⟩
    match ag claim ctx with
    | Except.error e => Except.error e
    | Except.ok a =>
      match stream_agents_loop claim other_claims domain rest (dict_append m claim.id a) with
      | Except.error e => Except.error e
      | Except.ok r =>
        Except.ok ⟨StreamEvent.agent_quote claim.id a.agent_name a.position a.confidence
            :: r.events, r.assessments_map, ctx :: r.contexts⟩

/-- Outcome of the streaming per-claim outer loop, with the per-claim
per-agent context traces. -/
structure StreamTrace where
  events : List StreamEvent
  verifications : List ClaimVerification
  contexts : List (String × List VContext)

/-- Streaming-mode lines 131-177, the `for claim_idx, claim in
enumerate(claims)` loop: per claim, run the agent loop, aggregate
`all_assessments[claim.id]` (a `KeyError` if absent), emit the risk
update, recurse.  An exception from any `verify` call propagates. -/
def stream_claims_loop (cfg : Config) (agents : List Agent) (all_claims : List Claim)
    (domain : String) :
    List Claim → List (String × List AgentAssessment) → Except String StreamTrace
  | [], _ => Except.ok ⟨[], [], []⟩
  | claim :: rest, m =>
    match stream_agents_loop claim
        (all_claims.filter (fun c => decide (c.id ≠ claim.id))) domain agents m with
    | Except.error e => Except.error e
    | Except.ok r =>
      match dict_get r.assessments_map claim.id with
      | none => Except.error ("KeyError")
      | some claim_assessments =>
        let verification := aggregate_risk cfg claim claim_assessments
        match stream_claims_loop cfg agents all_claims domain rest r.assessments_map with
        | Except.error e => Except.error e
        | Except.ok t =>
          Except.ok ⟨r.events ++
              [StreamEvent.risk_update claim.id verification.risk_score
                verification.verdict verification.action] ++ t.events,
            verification :: t.verifications,
            (claim.id, r.contexts) :: t.contexts⟩

/-- `run_verification_streaming` after claim extraction: the emitted
event sequence, or the exception that escaped the generator. -/
def run_verification_streaming (cfg : Config) (agents : List Agent)
    (claims : List Claim) (domain : String) : Except String (List StreamEvent) :=
  let head := [StreamEvent.session_created, StreamEvent.claims_extracted claims]
  if claims = [] then
    Except.ok (head ++ [StreamEvent.action_event ("ALLOW") ("No verifiable claims found.")])
  else
    match stream_claims_loop cfg agents claims domain claims [] with
    | Except.error e => Except.error e
    | Except.ok t => Except.ok (head ++ t.events ++ [StreamEvent.settlement_event])

/-! ## Auxiliary definitions for stating the claims -/

/-- Strictness order on actions: `ALLOW` (most lenient) < `REWRITE` < `BLOCK`. -/
def action_rank : RiskAction → ℕ
  | RiskAction.ALLOW => 0
  | RiskAction.REWRITE => 1
  | RiskAction.BLOCK => 2

/-- Severity order `LOW < MED < HIGH < CRITICAL`. -/
def severity_rank : Severity → ℕ
  | Severity.LOW => 0
  | Severity.MED => 1
  | Severity.HIGH => 2
  | Severity.CRITICAL => 3

/-- Modelled from the spec, for the amended C8 statement: the expected
per-verifier key sets of the `other_assessments` mapping during one
streaming claim, given the ids already fully scored (`prior`) and the
current claim's id: the first verifier sees `prior`, every later verifier
additionally sees the current claim's (in-flight) entry. -/
def spec_stream_agent_keys (n : ℕ) (prior : List String) (current : String) :
    List (List String) :=
  match n with
  | 0 => []
  | Nat.succ m => prior :: List.replicate m (prior ++ [current])

/-- A bare assessment with the given verifier name, position and
confidence (no findings), for concrete scenarios. -/
def mk_assessment (agent_name : String) (position : AgentSide) (confidence : ℚ) :
    AgentAssessment :=
  { agent_name := agent_name, claim_id := "CLM-1", position := position,
    confidence := confidence, summary := "" }

/-- A concrete medium-severity claim for witnesses and counterexamples. -/
def cDemo : Claim :=
  { id := "CLM-1", text := "Acme Corp revenue grew 32% QoQ", type := ClaimType.NUMERIC,
    severity := Severity.MED }

/-- A second concrete claim with a distinct id. -/
def cDemo2 : Claim :=
  { id := "CLM-2", text := "Operating margins were 30.8%", type := ClaimType.NUMERIC,
    severity := Severity.HIGH }

/-- Concrete verification records for the C10 witness. -/
def vDemo1 : ClaimVerification :=
  { claim := cDemo, risk_score := 9/10, verdict := Verdict.TRUE,
    action := RiskAction.ALLOW, rationale := "ok" }

def vDemo2 : ClaimVerification :=
  { claim := cDemo2, risk_score := 1/5, verdict := Verdict.FALSE,
    action := RiskAction.BLOCK, rationale := "bad" }

/-- A verifier whose `verify` call raises. -/
def err_agent (e : String) : Agent := fun _ _ => Except.error e

/-- A verifier that always returns a bare believes-true assessment. -/
def ok_agent (agent_name : String) (confidence : ℚ) : Agent :=
  fun claim _ => Except.ok
    { agent_name := agent_name, claim_id := claim.id,
      position := AgentSide.LONG, confidence := confidence, summary := "" }

/-! ## Helper lemmas -/

lemma agent_weight_pos (n : String) : 0 < agent_weight n := by
  unfold agent_weight
  split_ifs <;> norm_num

lemma evidence_weight_bounds (a : AgentAssessment) (h : ∀ f ∈ a.findings, f.Wf) :
    1/2 ≤ evidence_weight a ∧ evidence_weight a ≤ 1 := by
  unfold evidence_weight
  split_ifs with hf
  · have hlen : 0 < (a.findings.length : ℚ) := by
      have : a.findings.length ≠ 0 := fun h0 => hf (List.length_eq_zero.mp h0)
      positivity
    have hsum0 : 0 ≤ (a.findings.map Finding.relevance).sum := by
      apply List.sum_nonneg
      intro x hx
      obtain ⟨f, hfmem, rfl⟩ := List.mem_map.mp hx
      exact (h f hfmem).1
    have hsum1 : (a.findings.map Finding.relevance).sum ≤ (a.findings.length : ℚ) := by
      calc (a.findings.map Finding.relevance).sum
          ≤ ((a.findings.map (fun _ => (1:ℚ))).sum) := by
            apply List.sum_le_sum
            intro f hf2
            exact (h f hf2).2
        _ = (a.findings.length : ℚ) := by
            simp [List.map_const', List.sum_replicate, nsmul_eq_mul]
    constructor
    · have : 0 ≤ (a.findings.map Finding.relevance).sum / (a.findings.length : ℚ) :=
        div_nonneg hsum0 hlen.le
      nlinarith
    · have : (a.findings.map Finding.relevance).sum / (a.findings.length : ℚ) ≤ 1 :=
        (div_le_one hlen).mpr hsum1
      nlinarith
  · norm_num

lemma effective_weight_pos (a : AgentAssessment) (h : ∀ f ∈ a.findings, f.Wf) :
    0 < effective_weight a := by
  have h1 := agent_weight_pos a.agent_name
  have h2 := (evidence_weight_bounds a h).1
  unfold effective_weight
  nlinarith

lemma truth_prob_bounds (a : AgentAssessment) (h0 : 0 ≤ a.confidence)
    (h1 : a.confidence ≤ 1) : 0 ≤ truth_prob a ∧ truth_prob a ≤ 1 := by
  unfold truth_prob
  split_ifs <;> constructor <;> linarith

lemma weight_totals_aux (assessments : List AgentAssessment) :
    ∀ s t : ℚ, assessments.foldl
      (fun acc a => (acc.1 + truth_prob a * effective_weight a, acc.2 + effective_weight a))
      (s, t) =
    (s + (assessments.map (fun a => truth_prob a * effective_weight a)).sum,
     t + (assessments.map effective_weight).sum) := by
  induction assessments with
  | nil => intro s t; simp
  | cons a rest ih =>
    intro s t
    simp only [List.foldl_cons, ih, List.map_cons, List.sum_cons, Prod.mk.injEq]
    constructor <;> ring

lemma weight_totals_eq (assessments : List AgentAssessment) :
    weight_totals assessments =
      ((assessments.map (fun a => truth_prob a * effective_weight a)).sum,
       (assessments.map effective_weight).sum) := by
  unfold weight_totals
  simpa using weight_totals_aux assessments 0 0

lemma weight_total_pos (assessments : List AgentAssessment)
    (hne : assessments ≠ []) (hwf : ∀ a ∈ assessments, a.Wf) :
    0 < (assessments.map effective_weight).sum := by
  apply List.sum_pos
  · intro x hx
    obtain ⟨a, ha, rfl⟩ := List.mem_map.mp hx
    exact effective_weight_pos a (hwf a ha).2.2
  · simpa using hne

lemma base_risk_score_mem (assessments : List AgentAssessment)
    (hne : assessments ≠ []) (hwf : ∀ a ∈ assessments, a.Wf) :
    0 ≤ base_risk_score assessments ∧ base_risk_score assessments ≤ 1 := by
  have hpos := weight_total_pos assessments hne hwf
  have hnum : 0 ≤ (assessments.map (fun a => truth_prob a * effective_weight a)).sum := by
    apply List.sum_nonneg
    intro x hx
    obtain ⟨a, ha, rfl⟩ := List.mem_map.mp hx
    have hwa := hwf a ha
    have ht := truth_prob_bounds a hwa.1 hwa.2.1
    have he := effective_weight_pos a hwa.2.2
    nlinarith
  have hle : (assessments.map (fun a => truth_prob a * effective_weight a)).sum ≤
      (assessments.map effective_weight).sum := by
    rw [show (assessments.map effective_weight) =
        (assessments.map (fun a => effective_weight a)) from rfl]
    apply List.sum_le_sum
    intro a ha
    have hwa := hwf a ha
    have ht := truth_prob_bounds a hwa.1 hwa.2.1
    have he := effective_weight_pos a hwa.2.2
    nlinarith
  unfold base_risk_score
  rw [weight_totals_eq]
  rw [if_pos hpos]
  constructor
  · exact div_nonneg hnum hpos.le
  · exact (div_le_one hpos).mpr hle

lemma long_count_le (assessments : List AgentAssessment) :
    long_count assessments ≤ assessments.length :=
  List.length_filter_le _ _

lemma short_count_le (assessments : List AgentAssessment) :
    short_count assessments ≤ assessments.length :=
  List.length_filter_le _ _

lemma disagreement_adjusted_of_split (assessments : List AgentAssessment) (r : ℚ)
    (h : 0 < long_count assessments ∧ 0 < short_count assessments) :
    disagreement_adjusted assessments r =
      r * (1 - ((min (long_count assessments) (short_count assessments) : ℕ) : ℚ) /
            (assessments.length : ℚ) * (3/20)) +
        (1/2) * (((min (long_count assessments) (short_count assessments) : ℕ) : ℚ) /
            (assessments.length : ℚ) * (3/20)) := by
  unfold disagreement_adjusted
  rw [if_pos h]

lemma disagreement_adjusted_of_unanimous (assessments : List AgentAssessment) (r : ℚ)
    (h : long_count assessments = 0 ∨ short_count assessments = 0) :
    disagreement_adjusted assessments r = r := by
  unfold disagreement_adjusted
  rw [if_neg]
  rintro ⟨h1, h2⟩
  rcases h with h | h <;> omega

lemma minority_share_bounds (assessments : List AgentAssessment)
    (h : 0 < long_count assessments ∧ 0 < short_count assessments) :
    0 ≤ ((min (long_count assessments) (short_count assessments) : ℕ) : ℚ) /
        (assessments.length : ℚ) ∧
      ((min (long_count assessments) (short_count assessments) : ℕ) : ℚ) /
        (assessments.length : ℚ) ≤ 1 := by
  have hlen : 0 < assessments.length := lt_of_lt_of_le h.1 (long_count_le assessments)
  have hlenq : 0 < (assessments.length : ℚ) := by exact_mod_cast hlen
  constructor
  · apply div_nonneg _ hlenq.le
    positivity
  · rw [div_le_one hlenq]
    have : min (long_count assessments) (short_count assessments) ≤ assessments.length :=
      le_trans (min_le_left _ _) (long_count_le assessments)
    exact_mod_cast this

lemma disagreement_adjusted_mem (assessments : List AgentAssessment) (r : ℚ)
    (h0 : 0 ≤ r) (h1 : r ≤ 1) :
    0 ≤ disagreement_adjusted assessments r ∧ disagreement_adjusted assessments r ≤ 1 := by
  unfold disagreement_adjusted
  split_ifs with h
  · have hms := minority_share_bounds assessments h
    set ms := ((min (long_count assessments) (short_count assessments) : ℕ) : ℚ) /
      (assessments.length : ℚ) with hms_def
    constructor <;> nlinarith [hms.1, hms.2]
  · exact ⟨h0, h1⟩

lemma final_risk_score_mem (assessments : List AgentAssessment)
    (hne : assessments ≠ []) (hwf : ∀ a ∈ assessments, a.Wf) :
    0 ≤ final_risk_score assessments ∧ final_risk_score assessments ≤ 1 := by
  have hb := base_risk_score_mem assessments hne hwf
  exact disagreement_adjusted_mem assessments _ hb.1 hb.2

lemma round4_mem (r : ℚ) (h0 : 0 ≤ r) (h1 : r ≤ 1) :
    0 ≤ round4 r ∧ round4 r ≤ 1 := by
  unfold round4
  have hf0 : (0:ℤ) ≤ Int.floor (r * 10000 + 1/2) := by
    rw [Int.le_floor]
    push_cast
    nlinarith
  have hf1 : Int.floor (r * 10000 + 1/2) ≤ 10000 := by
    have := Int.floor_le (r * 10000 + 1/2)
    have hx : r * 10000 + 1/2 ≤ 10000 + 1/2 := by nlinarith
    have : (Int.floor (r * 10000 + 1/2) : ℚ) ≤ 10000 + 1/2 := le_trans this hx
    by_contra hc
    push_neg at hc
    have : (10001 : ℚ) ≤ (Int.floor (r * 10000 + 1/2) : ℚ) := by exact_mod_cast hc
    linarith
  constructor
  · apply div_nonneg _ (by norm_num)
    exact_mod_cast hf0
  · rw [div_le_one (by norm_num)]
    exact_mod_cast le_trans hf1 (by norm_num)

/-- C4: for every claim, an empty assessment list yields verdict
uncertain, action block, risk score 0.50 and the explicit "no
assessments" rationale — no confidence is fabricated. -/
theorem C4_no_assessments (cfg : Config) (claim : Claim) :
    aggregate_risk cfg claim [] =
      { claim := claim, risk_score := 1/2, verdict := Verdict.UNCERTAIN,
        action := RiskAction.BLOCK, rationale := "No agent assessments available.",
        assessments := [] } := rfl

/-- C9: an empty extracted claim list makes both execution modes
terminate immediately with overall action ALLOW, independently of the
verifier set (so no verifier is invoked), with no verifications, no
settlement (batch: `settled = false`; streaming: the terminal event is
the early ALLOW action event and no settlement event is emitted). -/
theorem C9_empty_claims_short_circuit (cfg : Config) (agents : List Agent)
    (domain : String) :
    run_verification cfg agents [] domain =
      { claims := [], verifications := [], overall_action := some RiskAction.ALLOW,
        settled := false } ∧
    run_verification_streaming cfg agents [] domain =
      Except.ok [StreamEvent.session_created, StreamEvent.claims_extracted [],
        StreamEvent.action_event ("ALLOW") ("No verifiable claims found.")] :=
  ⟨rfl, rfl⟩

/-- C5: `determine_overall_action` follows exactly the stated precedence:
critical/high block wins, then any rewrite, then any (lower-severity)
block downgraded to rewrite, else allow; the empty list gives block. -/
theorem C5_overall_action_precedence (verifications : List ClaimVerification) :
    determine_overall_action verifications =
      (if verifications = [] then RiskAction.BLOCK
       else if ∃ v ∈ verifications, v.action = RiskAction.BLOCK ∧
           (v.claim.severity = Severity.CRITICAL ∨ v.claim.severity = Severity.HIGH) then
         RiskAction.BLOCK
       else if ∃ v ∈ verifications, v.action = RiskAction.REWRITE then RiskAction.REWRITE
       else if ∃ v ∈ verifications, v.action = RiskAction.BLOCK then RiskAction.REWRITE
       else RiskAction.ALLOW) := by
  by_cases hnil : verifications = []
  · simp [determine_overall_action, hnil]
  · by_cases h1 : ∃ v ∈ verifications, v.action = RiskAction.BLOCK ∧
        (v.claim.severity = Severity.CRITICAL ∨ v.claim.severity = Severity.HIGH)
    · simp [determine_overall_action, hnil, h1, List.any_eq_true]
    · by_cases h2 : ∃ v ∈ verifications, v.action = RiskAction.REWRITE
      · simp [determine_overall_action, hnil, h1, h2, List.any_eq_true, List.mem_map]
      · by_cases h3 : ∃ v ∈ verifications, v.action = RiskAction.BLOCK
        · simp [determine_overall_action, hnil, h1, h2, h3, List.any_eq_true, List.mem_map]
        · simp [determine_overall_action, hnil, h1, h2, h3, List.any_eq_true, List.mem_map]

/-- C10: `determine_overall_action` is invariant under permutation of
the verification list — the overall action depends only on the multiset
of verifications, not on processing order. -/
theorem C10_overall_action_perm_invariant (v1 v2 : List ClaimVerification)
    (h : v1.Perm v2) : determine_overall_action v1 = determine_overall_action v2 := by
  unfold determine_overall_action
  have hnil : (v1 = []) ↔ (v2 = []) := by
    rw [← List.length_eq_zero, ← List.length_eq_zero, h.length_eq]
  have hany : ∀ p : ClaimVerification → Bool, v1.any p = v2.any p := by
    intro p
    rw [Bool.eq_iff_iff, List.any_eq_true, List.any_eq_true]
    constructor <;> rintro ⟨x, hm, hp⟩
    · exact ⟨x, h.mem_iff.mp hm, hp⟩
    · exact ⟨x, h.mem_iff.mpr hm, hp⟩
  have hmem : ∀ r : RiskAction,
      (r ∈ v1.map (fun v => v.action)) ↔ (r ∈ v2.map (fun v => v.action)) :=
    fun r => (h.map (fun v => v.action)).mem_iff
  by_cases h0 : v1 = []
  · rw [if_pos h0, if_pos (hnil.mp h0)]
  · rw [if_neg h0, if_neg (fun hc => h0 (hnil.mpr hc))]
    rw [hany]
    by_cases hb : v2.any (fun v => decide (v.action = RiskAction.BLOCK ∧
        (v.claim.severity = Severity.CRITICAL ∨ v.claim.severity = Severity.HIGH))) = true
    · rw [if_pos hb, if_pos hb]
    · rw [if_neg hb, if_neg hb]
      by_cases hr : RiskAction.REWRITE ∈ v1.map (fun v => v.action)
      · rw [if_pos hr, if_pos ((hmem _).mp hr)]
      · rw [if_neg hr, if_neg (fun hc => hr ((hmem _).mpr hc))]
        by_cases hbl : RiskAction.BLOCK ∈ v1.map (fun v => v.action)
        · rw [if_pos hbl, if_pos ((hmem _).mp hbl)]
        · rw [if_neg hbl, if_neg (fun hc => hbl ((hmem _).mpr hc))]

/-- Witness for C10 at a concrete pair of permuted lists. -/
theorem C10_overall_action_perm_invariant_witness :
    determine_overall_action [vDemo1, vDemo2] = determine_overall_action [vDemo2, vDemo1] :=
  C10_overall_action_perm_invariant [vDemo1, vDemo2] [vDemo2, vDemo1]
    (List.Perm.swap vDemo2 vDemo1 [])

lemma aggregate_risk_score_eq (cfg : Config) (claim : Claim)
    (assessments : List AgentAssessment) (hne : assessments ≠ []) :
    (aggregate_risk cfg claim assessments).risk_score =
      round4 (final_risk_score assessments) := by
  simp only [aggregate_risk, if_neg hne]

lemma round4_half : round4 (1/2 : ℚ) = 1/2 := by
  unfold round4
  have h : Int.floor ((1/2 : ℚ) * 10000 + 1/2) = 5000 := by
    apply Int.floor_eq_iff.mpr
    constructor <;> norm_num
  rw [h]
  norm_num

lemma riskAction_cases (a : RiskAction) :
    a = RiskAction.ALLOW ∨ a = RiskAction.REWRITE ∨ a = RiskAction.BLOCK := by
  cases a <;> simp

/-- C1: for any configuration, claim, and non-empty well-formed
assessment list, the verdict/action pair is obtained from the final risk
score by the severity-adjusted threshold table (both configured floors
multiplied by the severity multiplier, the allow floor capped at 0.95,
the rewrite floor at least 0.05 below the capped allow floor), the
stored risk score is the rounded final score and lies in [0,1], and the
action is one of allow/rewrite/block. -/
theorem C1_severity_adjusted_thresholds (cfg : Config) (claim : Claim)
    (assessments : List AgentAssessment) (hne : assessments ≠ [])
    (hwf : ∀ a ∈ assessments, a.Wf) :
    ((aggregate_risk cfg claim assessments).verdict,
      (aggregate_risk cfg claim assessments).action) =
      (if final_risk_score assessments ≥
          min (cfg.RISK_THRESHOLD_ALLOW * SEVERITY_MULTIPLIERS claim.severity) (19/20) then
        (Verdict.TRUE, RiskAction.ALLOW)
      else if final_risk_score assessments ≥
          min (cfg.RISK_THRESHOLD_REWRITE * SEVERITY_MULTIPLIERS claim.severity)
            (min (cfg.RISK_THRESHOLD_ALLOW * SEVERITY_MULTIPLIERS claim.severity) (19/20)
              - 1/20) then
        (Verdict.UNCERTAIN, RiskAction.REWRITE)
      else (Verdict.FALSE, RiskAction.BLOCK)) ∧
    (aggregate_risk cfg claim assessments).risk_score =
      round4 (final_risk_score assessments) ∧
    adjusted_allow cfg claim.severity ≤ 19/20 ∧
    adjusted_rewrite cfg claim.severity ≤ adjusted_allow cfg claim.severity - 1/20 ∧
    0 ≤ (aggregate_risk cfg claim assessments).risk_score ∧
    (aggregate_risk cfg claim assessments).risk_score ≤ 1 ∧
    ((aggregate_risk cfg claim assessments).action = RiskAction.ALLOW ∨
     (aggregate_risk cfg claim assessments).action = RiskAction.REWRITE ∨
     (aggregate_risk cfg claim assessments).action = RiskAction.BLOCK) := by
  have hfs := final_risk_score_mem assessments hne hwf
  have hr4 := round4_mem _ hfs.1 hfs.2
  have hrs := aggregate_risk_score_eq cfg claim assessments hne
  refine ⟨?_, hrs, min_le_right _ _, min_le_right _ _, ?_, ?_, riskAction_cases _⟩
  · simp only [aggregate_risk, if_neg hne]
    rw [Prod.mk.eta]
    rfl
  · rw [hrs]; exact hr4.1
  · rw [hrs]; exact hr4.2

/-- Witness for C1 at one concrete believes-true assessment. -/
theorem C1_severity_adjusted_thresholds_witness :
    0 ≤ (aggregate_risk config cDemo
        [mk_assessment ("NumericVerifier") AgentSide.LONG (9/10)]).risk_score ∧
      (aggregate_risk config cDemo
        [mk_assessment ("NumericVerifier") AgentSide.LONG (9/10)]).risk_score ≤ 1 := by
  have h := C1_severity_adjusted_thresholds config cDemo
    [mk_assessment ("NumericVerifier") AgentSide.LONG (9/10)]
    (List.cons_ne_nil _ _)
    (by
      intro a ha
      rw [List.mem_singleton] at ha
      subst ha
      refine ⟨by norm_num [mk_assessment], by norm_num [mk_assessment], ?_⟩
      intro f hf
      simp [mk_assessment] at hf)
  exact ⟨h.2.2.2.2.1, h.2.2.2.2.2.1⟩

/-- C2: for a non-empty well-formed assessment list, the pre-correction
risk score is the weighted mean of the truth probabilities (confidence
for believes-true, 1 − confidence for believes-false), weighted by the
verifier's fixed reliability weight times the evidence-quality factor
(0.5 with no findings, else 0.7 + 0.3 × mean finding relevance). -/
theorem C2_weighted_mean (assessments : List AgentAssessment)
    (hne : assessments ≠ []) (hwf : ∀ a ∈ assessments, a.Wf) :
    base_risk_score assessments =
      ((assessments.map (fun a =>
          (if a.position = AgentSide.LONG then a.confidence else 1 - a.confidence) *
          (agent_weight a.agent_name *
            (if a.findings ≠ [] then
              7/10 + 3/10 * ((a.findings.map Finding.relevance).sum /
                (a.findings.length : ℚ))
            else 1/2)))).sum) /
      ((assessments.map (fun a =>
          agent_weight a.agent_name *
            (if a.findings ≠ [] then
              7/10 + 3/10 * ((a.findings.map Finding.relevance).sum /
                (a.findings.length : ℚ))
            else 1/2))).sum) := by
  have hpos := weight_total_pos assessments hne hwf
  unfold base_risk_score
  rw [weight_totals_eq]
  dsimp only
  rw [if_pos hpos]
  simp only [truth_prob, effective_weight, evidence_weight]
  congr 1

/-- Witness for C2 at one concrete believes-true assessment. -/
theorem C2_weighted_mean_witness :
    base_risk_score [mk_assessment ("NumericVerifier") AgentSide.LONG (9/10)] =
      (([mk_assessment ("NumericVerifier") AgentSide.LONG (9/10)].map (fun a =>
          (if a.position = AgentSide.LONG then a.confidence else 1 - a.confidence) *
          (agent_weight a.agent_name *
            (if a.findings ≠ [] then
              7/10 + 3/10 * ((a.findings.map Finding.relevance).sum /
                (a.findings.length : ℚ))
            else 1/2)))).sum) /
      (([mk_assessment ("NumericVerifier") AgentSide.LONG (9/10)].map (fun a =>
          agent_weight a.agent_name *
            (if a.findings ≠ [] then
              7/10 + 3/10 * ((a.findings.map Finding.relevance).sum /
                (a.findings.length : ℚ))
            else 1/2))).sum) :=
  C2_weighted_mean [mk_assessment ("NumericVerifier") AgentSide.LONG (9/10)]
    (List.cons_ne_nil _ _)
    (by
      intro a ha
      rw [List.mem_singleton] at ha
      subst ha
      refine ⟨by norm_num [mk_assessment], by norm_num [mk_assessment], ?_⟩
      intro f hf
      simp [mk_assessment] at hf)

lemma two_assessments_base (n : String) (p1 p2 : AgentSide) (q1 q2 : ℚ) :
    base_risk_score [mk_assessment n p1 q1, mk_assessment n p2 q2] =
      (truth_prob (mk_assessment n p1 q1) + truth_prob (mk_assessment n p2 q2)) / 2 := by
  have hw : 0 < agent_weight n := agent_weight_pos n
  have hw0 : agent_weight n ≠ 0 := ne_of_gt hw
  have hew : ∀ p q, effective_weight (mk_assessment n p q) = agent_weight n * (1/2) := by
    intro p q
    simp [effective_weight, evidence_weight, mk_assessment]
  unfold base_risk_score
  rw [weight_totals_eq]
  dsimp only
  simp only [List.map_cons, List.map_nil, List.sum_cons, List.sum_nil, hew]
  rw [if_pos (by nlinarith)]
  field_simp
  ring

lemma truth_prob_long (n : String) (q : ℚ) :
    truth_prob (mk_assessment n AgentSide.LONG q) = q := by
  simp [truth_prob, mk_assessment]

lemma truth_prob_short (n : String) (q : ℚ) :
    truth_prob (mk_assessment n AgentSide.SHORT q) = 1 - q := by
  simp [truth_prob, mk_assessment]

lemma split_scenario_final (n : String) (q : ℚ) :
    final_risk_score [mk_assessment n AgentSide.LONG q,
      mk_assessment n AgentSide.SHORT q] = 1/2 := by
  have hlc : long_count [mk_assessment n AgentSide.LONG q,
      mk_assessment n AgentSide.SHORT q] = 1 := rfl
  have hsc : short_count [mk_assessment n AgentSide.LONG q,
      mk_assessment n AgentSide.SHORT q] = 1 := rfl
  unfold final_risk_score
  rw [disagreement_adjusted_of_split _ _ ⟨by rw [hlc]; norm_num, by rw [hsc]; norm_num⟩]
  rw [two_assessments_base, hlc, hsc, truth_prob_long, truth_prob_short]
  norm_num

lemma unanimous_scenario_final (n : String) (q : ℚ) :
    final_risk_score [mk_assessment n AgentSide.LONG q,
      mk_assessment n AgentSide.LONG q] = q := by
  have hsc : short_count [mk_assessment n AgentSide.LONG q,
      mk_assessment n AgentSide.LONG q] = 0 := rfl
  unfold final_risk_score
  rw [disagreement_adjusted_of_unanimous _ _ (Or.inr hsc)]
  rw [two_assessments_base, truth_prob_long]
  ring

/-- C3 (amended): with both camps non-empty the aggregator replaces the
weighted-mean score r by the convex combination
`r * (1 - minority_share * 0.15) + 0.5 * (minority_share * 0.15)`, which
shrinks the distance to 0.5 by exactly the factor
`1 - minority_share * 0.15` (so the pull is proportional to
minority_share, maximal at a 50/50 split and absent at unanimity); in
particular, for two verifiers of equal effective weight with the same
confidence q, the 1-true/1-false split scenario scores exactly 0.5 and
lies at least as close to 0.5 as the unanimous scenario (which scores
q), strictly closer whenever q ≠ 0.5. -/
theorem C3_disagreement_pull :
    (∀ (assessments : List AgentAssessment) (r : ℚ),
      0 < long_count assessments → 0 < short_count assessments →
      disagreement_adjusted assessments r =
        r * (1 - ((min (long_count assessments) (short_count assessments) : ℕ) : ℚ) /
            (assessments.length : ℚ) * (3/20)) +
          (1/2) * (((min (long_count assessments) (short_count assessments) : ℕ) : ℚ) /
            (assessments.length : ℚ) * (3/20)) ∧
      |disagreement_adjusted assessments r - 1/2| =
        (1 - ((min (long_count assessments) (short_count assessments) : ℕ) : ℚ) /
            (assessments.length : ℚ) * (3/20)) * |r - 1/2|) ∧
    (∀ (assessments : List AgentAssessment) (r : ℚ),
      long_count assessments = 0 ∨ short_count assessments = 0 →
      disagreement_adjusted assessments r = r) ∧
    (∀ (n : String) (q : ℚ),
      final_risk_score [mk_assessment n AgentSide.LONG q,
        mk_assessment n AgentSide.SHORT q] = 1/2 ∧
      final_risk_score [mk_assessment n AgentSide.LONG q,
        mk_assessment n AgentSide.LONG q] = q ∧
      |final_risk_score [mk_assessment n AgentSide.LONG q,
        mk_assessment n AgentSide.SHORT q] - 1/2| ≤
        |final_risk_score [mk_assessment n AgentSide.LONG q,
          mk_assessment n AgentSide.LONG q] - 1/2| ∧
      (q ≠ 1/2 →
        |final_risk_score [mk_assessment n AgentSide.LONG q,
          mk_assessment n AgentSide.SHORT q] - 1/2| <
          |final_risk_score [mk_assessment n AgentSide.LONG q,
            mk_assessment n AgentSide.LONG q] - 1/2|)) := by
  refine ⟨?_, ?_, ?_⟩
  · intro assessments r h1 h2
    have heq := disagreement_adjusted_of_split assessments r ⟨h1, h2⟩
    have hms := minority_share_bounds assessments ⟨h1, h2⟩
    refine ⟨heq, ?_⟩
    rw [heq]
    have h15 : 0 ≤ 1 - ((min (long_count assessments) (short_count assessments) : ℕ) : ℚ) /
        (assessments.length : ℚ) * (3/20) := by nlinarith [hms.1, hms.2]
    calc |r * (1 - ((min (long_count assessments) (short_count assessments) : ℕ) : ℚ) /
            (assessments.length : ℚ) * (3/20)) +
          (1/2) * (((min (long_count assessments) (short_count assessments) : ℕ) : ℚ) /
            (assessments.length : ℚ) * (3/20)) - 1/2|
        = |(1 - ((min (long_count assessments) (short_count assessments) : ℕ) : ℚ) /
            (assessments.length : ℚ) * (3/20)) * (r - 1/2)| := by
          congr 1
          ring
      _ = (1 - ((min (long_count assessments) (short_count assessments) : ℕ) : ℚ) /
            (assessments.length : ℚ) * (3/20)) * |r - 1/2| := by
          rw [abs_mul, abs_of_nonneg h15]
  · intro assessments r h
    exact disagreement_adjusted_of_unanimous assessments r h
  · intro n q
    have hs := split_scenario_final n q
    have hu := unanimous_scenario_final n q
    rw [hs, hu]
    refine ⟨rfl, rfl, ?_, ?_⟩
    · simp
    · intro hq
      have : (1/2 : ℚ) - 1/2 = 0 := by norm_num
      rw [this, abs_zero]
      exact abs_pos.mpr (sub_ne_zero.mpr hq)

/-- Witness for C3 (amended) at confidence 3/4. -/
theorem C3_disagreement_pull_witness :
    |final_risk_score [mk_assessment ("NumericVerifier") AgentSide.LONG (3/4),
      mk_assessment ("NumericVerifier") AgentSide.SHORT (3/4)] - 1/2| <
      |final_risk_score [mk_assessment ("NumericVerifier") AgentSide.LONG (3/4),
        mk_assessment ("NumericVerifier") AgentSide.LONG (3/4)] - 1/2| :=
  (C3_disagreement_pull.2.2 ("NumericVerifier") (3/4)).2.2.2 (by norm_num)

/-- Counterexample to C3 as stated: two scenarios with two verifiers of
identical mean confidence (all confidences 0.5), one unanimous and one
split 1-true/1-false; both risk scores equal 0.5, so the split scenario
is NOT strictly closer to 0.5 than the unanimous one. -/
theorem C3_strict_widening_counterexample :
    (([mk_assessment ("NumericVerifier") AgentSide.LONG (1/2),
       mk_assessment ("NumericVerifier") AgentSide.LONG (1/2)].map
        AgentAssessment.confidence).sum / 2 =
     ([mk_assessment ("NumericVerifier") AgentSide.LONG (1/2),
       mk_assessment ("NumericVerifier") AgentSide.SHORT (1/2)].map
        AgentAssessment.confidence).sum / 2) ∧
    ¬ (|(aggregate_risk config cDemo
          [mk_assessment ("NumericVerifier") AgentSide.LONG (1/2),
           mk_assessment ("NumericVerifier") AgentSide.SHORT (1/2)]).risk_score - 1/2| <
        |(aggregate_risk config cDemo
          [mk_assessment ("NumericVerifier") AgentSide.LONG (1/2),
           mk_assessment ("NumericVerifier") AgentSide.LONG (1/2)]).risk_score - 1/2|) := by
  constructor
  · simp [mk_assessment]
  · rw [aggregate_risk_score_eq config cDemo _ (List.cons_ne_nil _ _),
      aggregate_risk_score_eq config cDemo _ (List.cons_ne_nil _ _),
      split_scenario_final, unanimous_scenario_final, round4_half]
    simp

lemma severity_mult_mono (s1 s2 : Severity) (h : severity_rank s1 ≤ severity_rank s2) :
    SEVERITY_MULTIPLIERS s1 ≤ SEVERITY_MULTIPLIERS s2 := by
  cases s1 <;> cases s2 <;>
    simp_all [severity_rank, SEVERITY_MULTIPLIERS] <;> norm_num

lemma action_rank_le_two (a : RiskAction) : action_rank a ≤ 2 := by
  cases a <;> simp [action_rank]

lemma verdict_and_action_mono (cfg : Config) (s1 s2 : Severity)
    (hA : adjusted_allow cfg s1 ≤ adjusted_allow cfg s2)
    (hR : adjusted_rewrite cfg s1 ≤ adjusted_rewrite cfg s2) (r : ℚ) :
    action_rank (verdict_and_action cfg s1 r).2 ≤
      action_rank (verdict_and_action cfg s2 r).2 := by
  unfold verdict_and_action
  by_cases h2A : r ≥ adjusted_allow cfg s2
  · have h1A : r ≥ adjusted_allow cfg s1 := le_trans hA h2A
    rw [if_pos h1A, if_pos h2A]
  · rw [if_neg h2A]
    by_cases h2R : r ≥ adjusted_rewrite cfg s2
    · rw [if_pos h2R]
      by_cases h1A : r ≥ adjusted_allow cfg s1
      · rw [if_pos h1A]
        simp [action_rank]
      · rw [if_neg h1A, if_pos (le_trans hR h2R)]
    · rw [if_neg h2R]
      exact le_trans (action_rank_le_two _) (by simp [action_rank])

/-- C6: holding configuration (with non-negative configured floors, as
required by the spec's threshold contract) and assessments fixed,
raising the claim's severity (LOW < MED < HIGH < CRITICAL) never makes
the resulting action more lenient (ALLOW < REWRITE < BLOCK in
strictness). -/
theorem C6_severity_monotone (cfg : Config)
    (hA : 0 ≤ cfg.RISK_THRESHOLD_ALLOW) (hR : 0 ≤ cfg.RISK_THRESHOLD_REWRITE)
    (claim : Claim) (assessments : List AgentAssessment) (s1 s2 : Severity)
    (h : severity_rank s1 ≤ severity_rank s2) :
    action_rank (aggregate_risk cfg { claim with severity := s1 } assessments).action ≤
      action_rank (aggregate_risk cfg { claim with severity := s2 } assessments).action := by
  have hm := severity_mult_mono s1 s2 h
  have hAA : adjusted_allow cfg s1 ≤ adjusted_allow cfg s2 := by
    unfold adjusted_allow
    exact min_le_min (mul_le_mul_of_nonneg_left hm hA) le_rfl
  have hRR : adjusted_rewrite cfg s1 ≤ adjusted_rewrite cfg s2 := by
    unfold adjusted_rewrite
    exact min_le_min (mul_le_mul_of_nonneg_left hm hR) (sub_le_sub_right hAA _)
  by_cases hne : assessments = []
  · subst hne
    simp [aggregate_risk]
  · simp only [aggregate_risk, if_neg hne]
    exact verdict_and_action_mono cfg s1 s2 hAA hRR _

/-- Witness for C6: raising the demo claim from LOW to CRITICAL severity. -/
theorem C6_severity_monotone_witness :
    action_rank (aggregate_risk config { cDemo with severity := Severity.LOW }
        [mk_assessment ("NumericVerifier") AgentSide.LONG (9/10)]).action ≤
      action_rank (aggregate_risk config { cDemo with severity := Severity.CRITICAL }
        [mk_assessment ("NumericVerifier") AgentSide.LONG (9/10)]).action :=
  C6_severity_monotone config (by norm_num [config]) (by norm_num [config]) cDemo
    [mk_assessment ("NumericVerifier") AgentSide.LONG (9/10)]
    Severity.LOW Severity.CRITICAL (by simp [severity_rank])

lemma run_claims_batch_err (cfg : Config) (e : String) (ags1 ags2 : List Agent)
    (all_claims : List Claim) (domain : String) :
    ∀ (toProcess : List Claim) (acc : List (String × List AgentAssessment)),
    run_claims_batch cfg (ags1 ++ err_agent e :: ags2) all_claims domain toProcess acc =
      run_claims_batch cfg (ags1 ++ ags2) all_claims domain toProcess acc := by
  intro toProcess
  induction toProcess with
  | nil => intro acc; rfl
  | cons claim rest ih =>
    intro acc
    simp only [run_claims_batch]
    have hv : valid_assessments ((ags1 ++ err_agent e :: ags2).map
        (fun ag => ag claim
          ⟨all_claims.filter (fun c => decide (c.id ≠ claim.id)), acc, domain⟩)) =
      valid_assessments ((ags1 ++ ags2).map
        (fun ag => ag claim
          ⟨all_claims.filter (fun c => decide (c.id ≠ claim.id)), acc, domain⟩)) := by
      simp [valid_assessments, err_agent, List.filterMap_append]
    rw [hv, ih]

/-- C7 (amended): in batch mode a verifier whose `verify` call raises is
excluded from aggregation exactly as if it were absent (inserting an
always-raising verifier anywhere in the agent list leaves the whole
session result unchanged), and no exception reaches the caller; in
streaming mode there is no such protection — an exception raised by a
`verify` call propagates out of the generator and aborts the session. -/
theorem C7_error_isolation :
    (∀ (cfg : Config) (e : String) (ags1 ags2 : List Agent) (claims : List Claim)
        (domain : String),
      run_verification cfg (ags1 ++ err_agent e :: ags2) claims domain =
        run_verification cfg (ags1 ++ ags2) claims domain) ∧
    (∀ (cfg : Config) (e : String) (ags : List Agent) (claim : Claim)
        (rest : List Claim) (domain : String),
      run_verification_streaming cfg (err_agent e :: ags) (claim :: rest) domain =
        Except.error e) := by
  constructor
  · intro cfg e ags1 ags2 claims domain
    unfold run_verification
    by_cases h : claims = []
    · rw [if_pos h, if_pos h]
    · rw [if_neg h, if_neg h, run_claims_batch_err]
  · intro cfg e ags claim rest domain
    rfl

/-- Counterexample to C7 as stated: in streaming mode a raising verifier
aborts the whole session — the generator rethrows the exception instead
of excluding the verifier. -/
theorem C7_streaming_propagates_counterexample :
    run_verification_streaming config [err_agent ("boom")] [cDemo] "finance" =
      Except.error ("boom") := rfl

lemma dict_has_iff (m : List (String × List AgentAssessment)) (k : String) :
    dict_has m k = true ↔ k ∈ m.map Prod.fst := by
  simp [dict_has, List.any_eq_true, List.mem_map]

lemma dict_get_some_mem (m : List (String × List AgentAssessment)) (k : String)
    (v : List AgentAssessment) (h : dict_get m k = some v) : k ∈ m.map Prod.fst := by
  unfold dict_get at h
  cases hf : m.find? (fun p => decide (p.1 = k)) with
  | none => rw [hf] at h; cases h
  | some p =>
    have hp := List.find?_some hf
    have hm := List.mem_of_find?_eq_some hf
    simp only [decide_eq_true_eq] at hp
    rw [List.mem_map]
    exact ⟨p, hm, hp⟩

lemma dict_append_keys_of_mem (m : List (String × List AgentAssessment)) (k : String)
    (a : AgentAssessment) (h : k ∈ m.map Prod.fst) :
    (dict_append m k a).map Prod.fst = m.map Prod.fst := by
  unfold dict_append
  rw [if_pos ((dict_has_iff m k).mpr h)]
  rw [List.map_map]
  apply List.map_congr_left
  intro p _
  simp only [Function.comp_apply]
  split <;> rfl

lemma dict_append_keys_of_not_mem (m : List (String × List AgentAssessment)) (k : String)
    (a : AgentAssessment) (h : k ∉ m.map Prod.fst) :
    (dict_append m k a).map Prod.fst = m.map Prod.fst ++ [k] := by
  unfold dict_append
  rw [if_neg (fun hc => h ((dict_has_iff m k).mp hc))]
  simp

lemma dict_set_keys_of_not_mem (m : List (String × List AgentAssessment)) (k : String)
    (v : List AgentAssessment) (h : k ∉ m.map Prod.fst) :
    (dict_set m k v).map Prod.fst = m.map Prod.fst ++ [k] := by
  unfold dict_set
  rw [if_neg (fun hc => h ((dict_has_iff m k).mp hc))]
  simp

lemma run_claims_batch_contexts (cfg : Config) (agents : List Agent)
    (all_claims : List Claim) (domain : String) :
    ∀ (toProcess : List Claim) (acc : List (String × List AgentAssessment)) (k : ℕ),
    (∀ c ∈ toProcess, c.id ∉ acc.map Prod.fst) →
    (toProcess.map Claim.id).Nodup →
    ((run_claims_batch cfg agents all_claims domain toProcess acc).contexts.get? k).map
        (fun p => (p.1, p.2.other_assessments.map Prod.fst)) =
      (toProcess.get? k).map (fun c =>
        (c.id, acc.map Prod.fst ++ (toProcess.take k).map Claim.id)) := by
  intro toProcess
  induction toProcess with
  | nil => intro acc k _ _; rfl
  | cons claim rest ih =>
    intro acc k hdisj hnd
    have hnd1 : claim.id ∉ rest.map Claim.id := by
      rw [List.map_cons, List.nodup_cons] at hnd
      exact hnd.1
    have hnd2 : (rest.map Claim.id).Nodup := by
      rw [List.map_cons, List.nodup_cons] at hnd
      exact hnd.2
    have hkeys := dict_set_keys_of_not_mem acc claim.id
      (valid_assessments (agents.map (fun ag => ag claim
        ⟨all_claims.filter (fun c => decide (c.id ≠ claim.id)), acc, domain⟩)))
      (hdisj claim (List.mem_cons_self _ _))
    cases k with
    | zero =>
      simp only [run_claims_batch, List.get?_cons_zero, Option.map_some', List.take_zero,
        List.map_nil, List.append_nil]
    | succ k =>
      have hdisj2 : ∀ c ∈ rest, c.id ∉ (dict_set acc claim.id
          (valid_assessments (agents.map (fun ag => ag claim
            ⟨all_claims.filter (fun c => decide (c.id ≠ claim.id)), acc,
              domain⟩)))).map Prod.fst := by
        intro c hc
        rw [hkeys]
        simp only [List.mem_append, List.mem_singleton]
        rintro (hin | heq)
        · exact hdisj c (List.mem_cons_of_mem _ hc) hin
        · exact hnd1 (heq ▸ List.mem_map_of_mem Claim.id hc)
      simp only [run_claims_batch, List.get?_cons_succ, List.take_succ_cons, List.map_cons]
      rw [ih _ k hdisj2 hnd2]
      simp only [hkeys]
      cases rest.get? k with
      | none => rfl
      | some c => simp

lemma later_id_not_in_take (claims : List Claim)
    (hnd : (claims.map Claim.id).Nodup) (k j : ℕ) (c_j : Claim)
    (hj : claims.get? j = some c_j) (hkj : k ≤ j) :
    c_j.id ∉ (claims.take k).map Claim.id := by
  intro hmem
  have hsplit : (claims.take k).map Claim.id ++ (claims.drop k).map Claim.id =
      claims.map Claim.id := by
    rw [← List.map_append, List.take_append_drop]
  rw [← hsplit] at hnd
  have hdisj := (List.nodup_append.mp hnd).2.2
  have hmem2 : c_j.id ∈ (claims.drop k).map Claim.id := by
    have hget : (claims.drop k).get? (j - k) = some c_j := by
      rw [List.get?_eq_getElem?, List.getElem?_drop, Nat.add_sub_cancel' hkj,
        ← List.get?_eq_getElem?]
      exact hj
    exact List.mem_map_of_mem Claim.id (List.get?_mem hget)
  exact hdisj hmem hmem2

lemma stream_agents_loop_mem (claim : Claim) (oc : List Claim) (domain : String) :
    ∀ (ags : List Agent) (m : List (String × List AgentAssessment))
      (r : AgentsLoopResult),
    claim.id ∈ m.map Prod.fst →
    stream_agents_loop claim oc domain ags m = Except.ok r →
    r.contexts.map (fun c => c.other_assessments.map Prod.fst) =
        List.replicate ags.length (m.map Prod.fst) ∧
      r.assessments_map.map Prod.fst = m.map Prod.fst := by
  intro ags
  induction ags with
  | nil =>
    intro m r hmem h
    rw [show stream_agents_loop claim oc domain [] m = Except.ok ⟨[], m, []⟩ from rfl,
      Except.ok.injEq] at h
    subst h
    simp
  | cons ag rest ih =>
    intro m r hmem h
    simp only [stream_agents_loop] at h
    cases hag : ag claim ⟨oc, m, domain⟩ with
    | error e => rw [hag] at h; cases h
    | ok a =>
      rw [hag] at h
      dsimp only at h
      cases hrec : stream_agents_loop claim oc domain rest (dict_append m claim.id a) with
      | error e => rw [hrec] at h; cases h
      | ok r2 =>
        rw [hrec] at h
        dsimp only at h
        rw [Except.ok.injEq] at h
        subst h
        have hkeys := dict_append_keys_of_mem m claim.id a hmem
        have hih := ih (dict_append m claim.id a) r2 (by rw [hkeys]; exact hmem) hrec
        constructor
        · simp only [List.map_cons, List.length_cons, List.replicate_succ]
          rw [hih.1, hkeys]
        · rw [hih.2, hkeys]

lemma stream_agents_loop_fresh (claim : Claim) (oc : List Claim) (domain : String)
    (ags : List Agent) (m : List (String × List AgentAssessment))
    (r : AgentsLoopResult) (hnm : claim.id ∉ m.map Prod.fst)
    (h : stream_agents_loop claim oc domain ags m = Except.ok r) :
    r.contexts.map (fun c => c.other_assessments.map Prod.fst) =
      spec_stream_agent_keys ags.length (m.map Prod.fst) claim.id ∧
    r.assessments_map.map Prod.fst =
      (if ags.isEmpty then m.map Prod.fst else m.map Prod.fst ++ [claim.id]) := by
  cases ags with
  | nil =>
    rw [show stream_agents_loop claim oc domain [] m = Except.ok ⟨[], m, []⟩ from rfl,
      Except.ok.injEq] at h
    subst h
    simp [spec_stream_agent_keys]
  | cons ag rest =>
    simp only [stream_agents_loop] at h
    cases hag : ag claim ⟨oc, m, domain⟩ with
    | error e => rw [hag] at h; cases h
    | ok a =>
      rw [hag] at h
      dsimp only at h
      cases hrec : stream_agents_loop claim oc domain rest (dict_append m claim.id a) with
      | error e => rw [hrec] at h; cases h
      | ok r2 =>
        rw [hrec] at h
        dsimp only at h
        rw [Except.ok.injEq] at h
        subst h
        have hkeys := dict_append_keys_of_not_mem m claim.id a hnm
        have hmem2 : claim.id ∈ (dict_append m claim.id a).map Prod.fst := by
          rw [hkeys]
          simp
        have hrest := stream_agents_loop_mem claim oc domain rest
          (dict_append m claim.id a) r2 hmem2 hrec
        constructor
        · simp only [List.map_cons, List.length_cons, spec_stream_agent_keys]
          rw [hrest.1, hkeys]
        · rw [hrest.2, hkeys]
          simp

lemma stream_claims_loop_contexts (cfg : Config) (agents : List Agent)
    (all_claims : List Claim) (domain : String) :
    ∀ (toProcess : List Claim) (acc : List (String × List AgentAssessment))
      (t : StreamTrace),
    (∀ c ∈ toProcess, c.id ∉ acc.map Prod.fst) →
    (toProcess.map Claim.id).Nodup →
    stream_claims_loop cfg agents all_claims domain toProcess acc = Except.ok t →
    ∀ k, (t.contexts.get? k).map
        (fun p => (p.1, p.2.map (fun c => c.other_assessments.map Prod.fst))) =
      (toProcess.get? k).map (fun c =>
        (c.id, spec_stream_agent_keys agents.length
          (acc.map Prod.fst ++ (toProcess.take k).map Claim.id) c.id)) := by
  intro toProcess
  induction toProcess with
  | nil =>
    intro acc t _ _ h k
    rw [show stream_claims_loop cfg agents all_claims domain [] acc =
        Except.ok ⟨[], [], []⟩ from rfl, Except.ok.injEq] at h
    subst h
    rfl
  | cons claim rest ih =>
    intro acc t hdisj hnd h k
    simp only [stream_claims_loop] at h
    cases hsl : stream_agents_loop claim
        (all_claims.filter (fun c => decide (c.id ≠ claim.id))) domain agents acc with
    | error e => rw [hsl] at h; cases h
    | ok r =>
      rw [hsl] at h
      dsimp only at h
      have hfresh := stream_agents_loop_fresh claim
        (all_claims.filter (fun c => decide (c.id ≠ claim.id))) domain agents acc r
        (hdisj claim (List.mem_cons_self _ _)) hsl
      cases hgt : dict_get r.assessments_map claim.id with
      | none => rw [hgt] at h; cases h
      | some claim_assessments =>
        rw [hgt] at h
        dsimp only at h
        cases hrec : stream_claims_loop cfg agents all_claims domain rest
            r.assessments_map with
        | error e => rw [hrec] at h; cases h
        | ok t2 =>
          rw [hrec] at h
          dsimp only at h
          rw [Except.ok.injEq] at h
          subst h
          have hkeys : r.assessments_map.map Prod.fst =
              acc.map Prod.fst ++ [claim.id] := by
            cases hag0 : agents with
            | nil =>
              exfalso
              have hmem := dict_get_some_mem r.assessments_map claim.id
                claim_assessments hgt
              rw [hag0] at hfresh
              rw [hfresh.2] at hmem
              simp only [List.isEmpty_nil, if_pos] at hmem
              exact hdisj claim (List.mem_cons_self _ _) hmem
            | cons ag ags =>
              rw [hag0] at hfresh
              simpa using hfresh.2
          have hdisj2 : ∀ c ∈ rest, c.id ∉ r.assessments_map.map Prod.fst := by
            intro c hc
            rw [hkeys]
            simp only [List.mem_append, List.mem_singleton]
            rintro (hin | heq)
            · exact hdisj c (List.mem_cons_of_mem _ hc) hin
            · have hnd1 : claim.id ∉ rest.map Claim.id := by
                rw [List.map_cons, List.nodup_cons] at hnd
                exact hnd.1
              exact hnd1 (heq ▸ List.mem_map_of_mem Claim.id hc)
          have hnd2 : (rest.map Claim.id).Nodup := by
            rw [List.map_cons, List.nodup_cons] at hnd
            exact hnd.2
          have hIH := ih r.assessments_map t2 hdisj2 hnd2 hrec
          cases k with
          | zero =>
            simp only [List.get?_cons_zero, Option.map_some', List.take_zero,
              List.map_nil, List.append_nil]
            rw [hfresh.1]
          | succ k =>
            simp only [List.get?_cons_succ, List.take_succ_cons, List.map_cons]
            rw [hIH k, hkeys]
            simp [List.append_assoc]

lemma spec_stream_agent_keys_subset (n : ℕ) (prior : List String) (current : String)
    (ks : List String) (hks : ks ∈ spec_stream_agent_keys n prior current) :
    ∀ x ∈ ks, x ∈ prior ++ [current] := by
  cases n with
  | zero => simp [spec_stream_agent_keys] at hks
  | succ m =>
    simp only [spec_stream_agent_keys, List.mem_cons] at hks
    rcases hks with rfl | hks
    · intro x hx
      exact List.mem_append_left _ hx
    · have heq := List.eq_of_mem_replicate hks
      subst heq
      intro x hx
      exact hx

lemma take_succ_of_get? (claims : List Claim) (k : ℕ) (c : Claim)
    (h : claims.get? k = some c) :
    claims.take (k + 1) = claims.take k ++ [c] := by
  rw [List.take_succ]
  rw [List.get?_eq_getElem?] at h
  rw [h]
  rfl

/-- C8 (amended): in batch mode, the `other_assessments` mapping handed
to the verifiers of the k-th claim holds exactly one entry per
previously scored claim, in order — never the claim in flight, and (for
unique claim ids) never any claim scheduled later.  In streaming mode
(for unique claim ids) the mapping observed by the first verifier of the
k-th claim is the same, but every later verifier of that claim
additionally observes the in-flight entry of the current claim itself,
because the context dict aliases the mutated `all_assessments`;
assessments of claims scheduled after the k-th still never appear in
either mode. -/
theorem C8_context_accumulation :
    (∀ (cfg : Config) (agents : List Agent) (claims : List Claim) (domain : String),
      (claims.map Claim.id).Nodup →
      ∀ (k : ℕ),
      ((run_claims_batch cfg agents claims domain claims []).contexts.get? k).map
          (fun p => (p.1, p.2.other_assessments.map Prod.fst)) =
        (claims.get? k).map (fun c => (c.id, (claims.take k).map Claim.id))) ∧
    (∀ (cfg : Config) (agents : List Agent) (claims : List Claim) (domain : String),
      (claims.map Claim.id).Nodup →
      ∀ (k j : ℕ) (p : String × VContext) (c_j : Claim),
      (run_claims_batch cfg agents claims domain claims []).contexts.get? k = some p →
      claims.get? j = some c_j → k ≤ j →
      c_j.id ∉ p.2.other_assessments.map Prod.fst) ∧
    (∀ (cfg : Config) (agents : List Agent) (claims : List Claim) (domain : String)
        (t : StreamTrace),
      (claims.map Claim.id).Nodup →
      stream_claims_loop cfg agents claims domain claims [] = Except.ok t →
      ∀ k, (t.contexts.get? k).map
          (fun p => (p.1, p.2.map (fun c => c.other_assessments.map Prod.fst))) =
        (claims.get? k).map (fun c =>
          (c.id, spec_stream_agent_keys agents.length
            ((claims.take k).map Claim.id) c.id))) ∧
    (∀ (cfg : Config) (agents : List Agent) (claims : List Claim) (domain : String)
        (t : StreamTrace),
      (claims.map Claim.id).Nodup →
      stream_claims_loop cfg agents claims domain claims [] = Except.ok t →
      ∀ (k j : ℕ) (p : String × List VContext) (c_j : Claim),
      t.contexts.get? k = some p → claims.get? j = some c_j → k < j →
      ∀ ctx ∈ p.2, c_j.id ∉ ctx.other_assessments.map Prod.fst) := by
  have hbatch : ∀ (cfg : Config) (agents : List Agent) (claims : List Claim)
      (domain : String),
      (claims.map Claim.id).Nodup →
      ∀ (k : ℕ),
      ((run_claims_batch cfg agents claims domain claims []).contexts.get? k).map
          (fun p => (p.1, p.2.other_assessments.map Prod.fst)) =
        (claims.get? k).map (fun c => (c.id, (claims.take k).map Claim.id)) := by
    intro cfg agents claims domain hnd k
    simpa using run_claims_batch_contexts cfg agents claims domain claims [] k
      (by simp) hnd
  have hstream : ∀ (cfg : Config) (agents : List Agent) (claims : List Claim)
      (domain : String) (t : StreamTrace),
      (claims.map Claim.id).Nodup →
      stream_claims_loop cfg agents claims domain claims [] = Except.ok t →
      ∀ k, (t.contexts.get? k).map
          (fun p => (p.1, p.2.map (fun c => c.other_assessments.map Prod.fst))) =
        (claims.get? k).map (fun c =>
          (c.id, spec_stream_agent_keys agents.length
            ((claims.take k).map Claim.id) c.id)) := by
    intro cfg agents claims domain t hnd h k
    simpa using stream_claims_loop_contexts cfg agents claims domain claims [] t
      (by simp) hnd h k
  refine ⟨hbatch, ?_, hstream, ?_⟩
  · intro cfg agents claims domain hnd k j p c_j hp hj hkj
    have hk := hbatch cfg agents claims domain hnd k
    rw [hp] at hk
    cases hck : claims.get? k with
    | none => rw [hck] at hk; cases hk
    | some c_k =>
      rw [hck] at hk
      simp only [Option.map_some', Option.some.injEq, Prod.mk.injEq] at hk
      intro hmem
      rw [hk.2] at hmem
      exact later_id_not_in_take claims hnd k j c_j hj hkj hmem
  · intro cfg agents claims domain t hnd h k j p c_j hp hj hkj ctx hctx
    have hk := hstream cfg agents claims domain t hnd h k
    rw [hp] at hk
    cases hck : claims.get? k with
    | none => rw [hck] at hk; cases hk
    | some c_k =>
      rw [hck] at hk
      simp only [Option.map_some', Option.some.injEq, Prod.mk.injEq] at hk
      intro hmem
      have hks : ctx.other_assessments.map Prod.fst ∈
          spec_stream_agent_keys agents.length ((claims.take k).map Claim.id) c_k.id := by
        rw [← hk.2]
        exact List.mem_map_of_mem _ hctx
      have hsub := spec_stream_agent_keys_subset agents.length
        ((claims.take k).map Claim.id) c_k.id _ hks
      have hmem2 := hsub _ hmem
      have htake : (claims.take (k+1)).map Claim.id =
          (claims.take k).map Claim.id ++ [c_k.id] := by
        rw [take_succ_of_get? claims k c_k hck]
        simp
      rw [← htake] at hmem2
      exact later_id_not_in_take claims hnd (k+1) j c_j hj (by omega) hmem2

/-- Witness for C8 (amended), applying the batch no-current/no-later
conjunct at a concrete two-claim batch run: the first claim's context
holds no entry for the second claim. -/
theorem C8_context_accumulation_witness :
    cDemo2.id ∉ ((⟨[cDemo2], [], "finance"⟩ : VContext)).other_assessments.map Prod.fst :=
  C8_context_accumulation.2.1 config [ok_agent ("NumericVerifier") (9/10)]
    [cDemo, cDemo2] "finance" (by decide) 0 1
    ("CLM-1", (⟨[cDemo2], [], "finance"⟩ : VContext))
    cDemo2 rfl rfl (by omega)

/-- Counterexample to C8 as stated: in streaming mode the second
verifier of the first (still in-flight) claim already observes an
`other_assessments` entry keyed by that same claim, produced by the
first verifier moments earlier — the context mapping is not restricted
to fully scored claims. -/
theorem C8_inflight_context_counterexample :
    (stream_claims_loop config
        [ok_agent ("NumericVerifier") (9/10), ok_agent ("RetrieverAgent") (8/10)]
        [cDemo] "finance" [cDemo] []).map
      (fun t => t.contexts.map (fun p =>
        (p.1, p.2.map (fun c => c.other_assessments.map Prod.fst)))) =
    Except.ok [("CLM-1", [[], ["CLM-1"]])] := rfl
